import Mathlib

/-!
Verification of the `respondeai` backend (question generation/answering over
Brazilian legal statutes).  The Python services are shallowly embedded:
pure helpers become Lean functions over `List Char` / `List String`,
stateful pieces (the process environment, the per-article repetition
counter) are passed explicitly, machine floats are modelled by `ℚ`, and
fallible calls return `Except`/`Option`.  Each definition mirrors one
function of the source tree, named after it.
-/

namespace RespondeAI

/-! ### Python string primitives

Models of the Python `str` methods used by the services, over the
character list of a `String`.  `str.lower` is modelled on the ASCII and
accented Portuguese letters that occur in this repository. -/

/-- Model of Python `str.lower` on one character (ASCII plus the accented
uppercase letters used in the repository's trigger tables). -/
def pyLowerChar (c : Char) : Char :=
  if c = 'Á' then 'á' else if c = 'À' then 'à' else if c = 'Â' then 'â'
  else if c = 'Ã' then 'ã' else if c = 'É' then 'é' else if c = 'Ê' then 'ê'
  else if c = 'Í' then 'í' else if c = 'Ó' then 'ó' else if c = 'Ô' then 'ô'
  else if c = 'Õ' then 'õ' else if c = 'Ú' then 'ú' else if c = 'Ü' then 'ü'
  else if c = 'Ç' then 'ç' else c.toLower

/-- Model of Python `str.lower`. -/
def pyLower (s : String) : String := ⟨s.data.map pyLowerChar⟩

/-- Model of Python `str.strip` (drop leading and trailing whitespace). -/
def pyStrip (s : String) : String :=
  ⟨((s.data.dropWhile (fun c => c.isWhitespace)).reverse.dropWhile
      (fun c => c.isWhitespace)).reverse⟩

/-- Model of Python `str.split()` with no argument: split on whitespace
runs, dropping empty pieces. -/
def pySplit (s : String) : List String :=
  ((s.data.splitOnP (fun c => c.isWhitespace)).filter (fun w => !w.isEmpty)).map
    (fun w => ⟨w⟩)

/-- Does `needle` start `hay`?  (model of Python `str.startswith`,
used to build the substring test). -/
def listStartsWith [DecidableEq α] : List α → List α → Bool
  | [], _ => true
  | _ :: _, [] => false
  | a :: as, b :: bs => if a = b then listStartsWith as bs else false

/-- Substring occurrence test on lists (auxiliary for `pyIn`). -/
def listContainsSub [DecidableEq α] (needle : List α) : List α → Bool
  | [] => decide (needle = [])
  | b :: bs => listStartsWith needle (b :: bs) || listContainsSub needle bs

/-- Model of the Python substring test `needle in hay`. -/
def pyIn (needle hay : String) : Bool := listContainsSub needle.data hay.data

/-! ### `utils/helpers.py` : `truncar_texto` -/

/-- Index of the last occurrence of `c` in the list, if any
(model of Python `str.rfind`, which the source guards with `> 0`). -/
def rfindChar (c : Char) : List Char → Option ℕ
  | [] => none
  | x :: xs =>
    match rfindChar c xs with
    | some j => some (j + 1)
    | none => if x = c then some 0 else none

/-- `truncar_texto` from `src/utils/helpers.py`: return the text unchanged
when it fits in `max_chars`; otherwise take the first `max_chars`
characters, cut back to the last space when it sits at a positive index,
and append an ellipsis. -/
def truncarTexto (texto : String) (max_chars : ℕ) : String :=
  if texto.length ≤ max_chars then texto
  else
    let truncado : List Char := texto.data.take max_chars
    match rfindChar ' ' truncado with
    | some j => if 0 < j then String.mk (truncado.take j) ++ "..." else String.mk truncado ++ "..."
    | none => String.mk truncado ++ "..."

/-- The cut position `n` falls strictly inside a word of `l`: both its
neighbours exist and neither is whitespace. -/
def splitsWordAt (l : List Char) (n : ℕ) : Bool :=
  decide (0 < n) && decide (n < l.length) &&
    (match l[n - 1]?, l[n]? with
     | some c1, some c2 => !c1.isWhitespace && !c2.isWhitespace
     | _, _ => false)

/-- Claim C10 as stated, at one input: either the text fits and is
returned unchanged, or the result is a word-respecting prefix followed by
an ellipsis. -/
def claimC10At (texto : String) (max_chars : ℕ) : Prop :=
  (texto.length ≤ max_chars ∧ truncarTexto texto max_chars = texto) ∨
  (max_chars < texto.length ∧ ∃ core : String,
    truncarTexto texto max_chars = core ++ "..." ∧
    texto.data.take core.length = core.data ∧
    splitsWordAt texto.data core.length = false)

/-! ### `services/vectorstore_service.py` : `buscar_similares`

The OpenSearch engine is modelled as an oracle returning ranked
(document, score) pairs or an error; scores are `ℚ` (floats idealised as
rationals). -/

/-- One metadata filter value (Python `dict` values used as filters are
booleans or strings). -/
inductive FiltroVal where
  | b (v : Bool)
  | s (v : String)
deriving DecidableEq

/-- A metadata filter, as passed by the callers of `buscar_similares`. -/
def Filtro : Type := List (String × FiltroVal)

/-- The RAG settings read from `core/config.py` (`RAG_TOP_K`,
`RAG_SCORE_THRESHOLD`, defaults 5 and 0.5). -/
structure RagSettings where
  top_k : ℕ
  score_threshold : ℚ

/-- Default RAG settings from `core/config.py`. -/
def defaultRagSettings : RagSettings := ⟨5, 1/2⟩

/-- `k = k or settings.RAG_TOP_K`: Python `or` replaces both `None` and
`0` (falsy) by the default. -/
def resolveK (s : RagSettings) : Option ℕ → ℕ
  | none => s.top_k
  | some 0 => s.top_k
  | some (n + 1) => n + 1

/-- `VectorStoreService.buscar_similares`: run the engine search with the
resolved `k`, keep the documents whose score is at least the configured
threshold (in their returned order), and return `[]` on any failure.  The
`filtro` argument is accepted but never forwarded to the engine call. -/
def buscarSimilares {α : Type} (s : RagSettings)
    (engine : String → ℕ → Except String (List (α × ℚ)))
    (query : String) (k : Option ℕ) (filtro : Option Filtro) : List α :=
  match engine query (resolveK s k) with
  | Except.error _ => []
  | Except.ok pairs => (pairs.filter (fun p => s.score_threshold ≤ p.2)).map Prod.fst

/-- A fixed engine used to witness the threshold filtering, returning the
scores 0.9, 0.6, 0.4, 0.2 of the spec's example. -/
def engineExemplo : String → ℕ → Except String (List (String × ℚ)) :=
  fun _ _ => Except.ok [("d1", 9/10), ("d2", 6/10), ("d3", 4/10), ("d4", 2/10)]

/-- A fixed always-failing engine. -/
def engineFalha : String → ℕ → Except String (List (String × ℚ)) :=
  fun _ _ => Except.error "ConnectionError"

/-! ### `extract_documents.py` : the CLI entry point

`main` parses the folder argument, exits 1 when the folder is missing,
and then calls `processar_e_indexar` with keyword arguments.  Python
keyword binding is modelled explicitly because the call names a keyword
(`apenas_em_vigor`) that the service function does not accept. -/

/-- Keyword parameters accepted by
`DocumentExtractionService.processar_e_indexar` (besides `self`). -/
def processarEIndexarParams : List String :=
  ["caminho_pasta", "salvar_json", "incluir_vetados"]

/-- Keyword argument names used by the call in `extract_documents.main`. -/
def extractCliKwargs : List String :=
  ["caminho_pasta", "salvar_json", "apenas_em_vigor"]

/-- Python keyword binding: a `TypeError` is raised when a keyword does
not name a parameter. -/
def bindKwargs (params kwargs : List String) : Except String Unit :=
  match kwargs.find? (fun kw => !params.contains kw) with
  | some kw => Except.error ("got an unexpected keyword argument " ++ kw)
  | none => Except.ok ()

/-- The structured result of `processar_e_indexar`
(`{"sucesso": True, totals...}` or `{"sucesso": False}`). -/
inductive PipelineOutcome where
  | sucesso (total em_vigor vetados : ℕ)
  | falha

/-- The dict returned by `processar_e_indexar`, as key/value pairs. -/
def pipelineDict : PipelineOutcome → List (String × String)
  | PipelineOutcome.sucesso t v vt =>
    [("sucesso", "True"), ("total_artigos", toString t),
     ("artigos_em_vigor", toString v), ("artigos_vetados", toString vt)]
  | PipelineOutcome.falha => [("sucesso", "False")]

/-- Python truthiness of a dict: non-empty dicts are truthy. -/
def pyDictTruthy (d : List (String × String)) : Bool := !d.isEmpty

/-- Exit code of `extract_documents.main`: exit 1 when the folder is
missing; otherwise perform the keyword-bound call to
`processar_e_indexar` (an unhandled `TypeError` makes the interpreter
exit 1), and on a successful call test the returned dict's truthiness. -/
def mainExitCode (pastaExists : Bool) (pipeline : PipelineOutcome) : ℕ :=
  if !pastaExists then 1
  else
    match bindKwargs processarEIndexarParams extractCliKwargs with
    | Except.error _ => 1
    | Except.ok _ => if pyDictTruthy (pipelineDict pipeline) then 0 else 1

/-! ### `services/rag_chain.py` : query expansion and context retrieval -/

/-- The trigger-to-expansion table of
`RAGChainService._expandir_query_com_metadados` (a Python dict iterated
in insertion order). -/
def mapeamentoLeis : List (String × String) :=
  [("lei de introdução", "Lei 4657 LINDB"),
   ("lindb", "Lei 4657 Lei de Introdução às Normas do Direito Brasileiro"),
   ("4657", "Lei 4657 LINDB Lei de Introdução"),
   ("código civil", "Lei 10406 Código Civil"),
   ("10406", "Lei 10406 Código Civil"),
   ("constituição", "Constituição Federal CF/88"),
   ("cf/88", "Constituição Federal"),
   ("código penal", "Decreto-Lei 2848 Código Penal"),
   ("2848", "Decreto-Lei 2848 Código Penal")]

/-- The trigger substrings of the expansion table. -/
def gatilhos : List String := mapeamentoLeis.map Prod.fst

/-- `_expandir_query_com_metadados`: append the expansion of every
trigger contained in the lower-cased theme. -/
def expandirQueryComMetadados (tema : String) : String :=
  mapeamentoLeis.foldl
    (fun query_expandida e =>
      if pyIn e.1 (pyLower tema) then query_expandida ++ " " ++ e.2 else query_expandida)
    tema

/-- The `{"em_vigor": True}` filter of `_buscar_contexto_inteligente`. -/
def filtroEmVigor : Filtro := [("em_vigor", FiltroVal.b true)]

/-- The merge loop of `_buscar_contexto_inteligente` (step 4): start from
the in-force results and append each general result not already present
while the list is shorter than `k`. -/
def mergeDocs {α : Type} [DecidableEq α] (docsVigor docsGeral : List α) (k : ℕ) : List α :=
  docsGeral.foldl
    (fun docs_combinados doc =>
      if doc ∉ docs_combinados ∧ docs_combinados.length < k
      then docs_combinados ++ [doc] else docs_combinados)
    docsVigor

/-- Steps 1-4 of `_buscar_contexto_inteligente`: expand the theme, fetch
`max 1 (k / 2)` documents with the in-force filter argument, fetch `k`
documents with no filter, and merge.  The underlying search is abstracted
as an oracle taking the query, the result count and the filter
argument. -/
def buscarContextoCombinados {α : Type} [DecidableEq α]
    (search : String → ℕ → Option Filtro → List α) (tema : String) (k : ℕ) : List α :=
  mergeDocs
    (search (expandirQueryComMetadados tema) (max 1 (k / 2)) (some filtroEmVigor))
    (search (expandirQueryComMetadados tema) k none)
    k

/-- The spec's merge, written as stated: take all in-force results first,
then append non-duplicate general results until the merged list reaches
length `k`. -/
def specMergeAux {α : Type} [DecidableEq α] (k : ℕ) : List α → List α → List α
  | acc, [] => acc
  | acc, d :: ds =>
    if k ≤ acc.length then acc
    else if d ∈ acc then specMergeAux k acc ds
    else specMergeAux k (acc ++ [d]) ds

/-- Claim C5's retrieval strategy as stated: up to `⌈k/2⌉` in-force
documents, then up to `k` unrestricted ones, merged. -/
def specRetrievalCeil {α : Type} [DecidableEq α]
    (search : String → ℕ → Option Filtro → List α) (tema : String) (k : ℕ) : List α :=
  specMergeAux k
    (search (expandirQueryComMetadados tema) ((k + 1) / 2) (some filtroEmVigor))
    (search (expandirQueryComMetadados tema) k none)

/-- The retrieval strategy with the in-force request size the code
actually uses, `max 1 (k / 2)`. -/
def specRetrievalFloor {α : Type} [DecidableEq α]
    (search : String → ℕ → Option Filtro → List α) (tema : String) (k : ℕ) : List α :=
  specMergeAux k
    (search (expandirQueryComMetadados tema) (max 1 (k / 2)) (some filtroEmVigor))
    (search (expandirQueryComMetadados tema) k none)

/-- A search oracle distinguishing filtered from unfiltered requests and
returning as many distinct documents as requested. -/
def searchExemplo : String → ℕ → Option Filtro → List ℕ :=
  fun _ n f =>
    match f with
    | some _ => List.range n
    | none => (List.range n).map (fun i => 100 + i)

/-! ### `services/perguntas_service.py` : `_perguntas_similares` -/

/-- `pergunta.lower().strip()`, the normalisation applied before the
similarity test. -/
def pyNorm (q : String) : String := pyStrip (pyLower q)

/-- `set(p.split())`, modelled as a duplicate-free word list. -/
def palavrasDe (p : String) : List String := (pySplit p).dedup

/-- `len(palavras1.intersection(palavras2))`. -/
def intersecaoLen (p1 p2 : String) : ℕ :=
  ((palavrasDe p1).filter (fun w => decide (w ∈ palavrasDe p2))).length

/-- `len(palavras1.union(palavras2))`. -/
def uniaoLen (p1 p2 : String) : ℕ := ((palavrasDe p1 ++ palavrasDe p2).dedup).length

/-- `similaridade = intersecao / uniao if uniao > 0 else 0`, with the
float division idealised over `ℚ`. -/
def similaridade (p1 p2 : String) : ℚ :=
  if 0 < uniaoLen p1 p2 then (intersecaoLen p1 p2 : ℚ) / (uniaoLen p1 p2 : ℚ) else 0

/-- `PerguntasService._perguntas_similares`: exact match of the
normalised questions, or word-overlap ratio strictly above 0.8. -/
def perguntasSimilares (pergunta1 pergunta2 : String) : Bool :=
  if pyNorm pergunta1 = pyNorm pergunta2 then true
  else decide ((4 : ℚ)/5 < similaridade (pyNorm pergunta1) (pyNorm pergunta2))

/-- The word set of a question, as the spec describes it (whitespace-split
words of the lower-cased, trimmed question). -/
def wordSet (q : String) : Finset String := (pySplit (pyNorm q)).toFinset

/-- The Jaccard word-set overlap ratio of two questions. -/
def jaccardRatio (q1 q2 : String) : ℚ :=
  ((wordSet q1 ∩ wordSet q2).card : ℚ) / ((wordSet q1 ∪ wordSet q2).card : ℚ)

/-- Claim C6's cache-hit condition as stated: equality after lower-casing
and trimming, or Jaccard ratio strictly greater than 0.8. -/
def cacheHitSpec (q1 q2 : String) : Prop :=
  pyNorm q1 = pyNorm q2 ∨ (4 : ℚ)/5 < jaccardRatio q1 q2

/-- One hundred distinct words used to realise a Jaccard ratio of exactly
0.81. -/
def palavras100 : List String := (List.range 100).map (fun i => "w" ++ toString i)

/-- A question with one hundred distinct words. -/
def questao100 : String := String.intercalate " " palavras100

/-- A question with the first eighty-one of those words: Jaccard ratio
81/100 against `questao100`. -/
def questao81 : String := String.intercalate " " (palavras100.take 81)

/-! ### `core/config.py` : YAML-to-environment flattening

`Settings.__init__` loads `config.yaml`, writes its values into
`os.environ`, then lets the settings base class read the environment.
The environment is modelled as a partial map, the YAML document as a
nested tree whose scalar values are represented by their Python `str()`
image. -/

/-- A YAML document: a scalar (carrying its `str()` image) or a nested
mapping. -/
inductive Yaml where
  | leaf (s : String)
  | node (es : List (String × Yaml))

/-- Python `str()` of a YAML value as written into the environment by
`_map_yaml_to_env` (claims only exercise scalars). -/
def pyStrYaml : Yaml → String
  | Yaml.leaf s => s
  | Yaml.node _ => "<dict>"

/-- The process environment. -/
def Env : Type := String → Option String

/-- `os.environ[k] = v`. -/
def setEnv (e : Env) (k v : String) : Env :=
  fun k' => if k' = k then some v else e k'

/-- The YAML-path to environment-variable table of
`Settings._map_yaml_to_env`. -/
def yamlEnvMapping : List (String × String) :=
  [("app.name", "APP_NAME"), ("app.version", "APP_VERSION"), ("app.env", "APP_ENV"),
   ("app.debug", "DEBUG"), ("app.host", "HOST"), ("app.port", "PORT"),
   ("ollama.base_url", "OLLAMA_BASE_URL"), ("ollama.model", "OLLAMA_MODEL"),
   ("ollama.embedding_model", "OLLAMA_EMBEDDING_MODEL"),
   ("opensearch.host", "OPENSEARCH_HOST"), ("opensearch.port", "OPENSEARCH_PORT"),
   ("opensearch.user", "OPENSEARCH_USER"), ("opensearch.password", "OPENSEARCH_PASSWORD"),
   ("opensearch.index", "OPENSEARCH_INDEX"), ("opensearch.use_ssl", "OPENSEARCH_USE_SSL"),
   ("rag.top_k", "RAG_TOP_K"), ("rag.score_threshold", "RAG_SCORE_THRESHOLD"),
   ("cors.origins", "CORS_ORIGINS")]

/-- `Settings._get_nested_value`: walk the split dotted path through
nested mappings. -/
def getNested : Yaml → List String → Option Yaml
  | y, [] => some y
  | y, key :: ks =>
    match y with
    | Yaml.node es =>
      match es.lookup key with
      | some y' => getNested y' ks
      | none => none
    | Yaml.leaf _ => none

/-- Model of Python `path.split(".")` (empty pieces kept). -/
def splitDot (s : String) : List String :=
  (s.data.splitOnP (fun c => c = '.')).map (fun w => ⟨w⟩)

/-- `_get_nested_value` on the dotted path string. -/
def getNestedValue (cfg : Yaml) (path : String) : Option Yaml :=
  getNested cfg (splitDot path)

/-- The loop body of `Settings._map_yaml_to_env` over a mapping-table
suffix: for each entry whose YAML path resolves, write the value's string
image into the environment (unconditionally overwriting). -/
def mapYamlToEnvAux (cfg : Yaml) : List (String × String) → Env → Env
  | [], e => e
  | p :: ps, e =>
    mapYamlToEnvAux cfg ps
      (match getNestedValue cfg p.1 with
       | some v => setEnv e p.2 (pyStrYaml v)
       | none => e)

/-- `Settings._map_yaml_to_env` over the full table. -/
def mapYamlToEnv (cfg : Yaml) (e : Env) : Env := mapYamlToEnvAux cfg yamlEnvMapping e

/-- The pydantic settings read of one field after flattening: the
environment value when present, the declared default otherwise. -/
def settingsValue (e : Env) (field dflt : String) : String := (e field).getD dflt

/-- A settings field as constructed by `Settings()`: flatten the YAML
file into the environment, then read the field. -/
def settingsAfterInit (cfg : Yaml) (e : Env) (field dflt : String) : String :=
  settingsValue (mapYamlToEnv cfg e) field dflt

/-- A process environment presetting `OPENSEARCH_HOST`. -/
def envComHost : Env :=
  fun k => if k = "OPENSEARCH_HOST" then some "env-host" else none

/-- A config file also setting `opensearch.host`. -/
def yamlComHost : Yaml :=
  Yaml.node [("opensearch", Yaml.node [("host", Yaml.leaf "yaml-host")])]

/-! ### `services/document_extraction_service.py` : article extraction

`processar_pdf` is embedded from its regex-match list onward: the input
is the list of `(numero_artigo, texto_artigo)` pairs produced by
`re.findall`, and the counting/marking loops of lines 42-68 are modelled
exactly (the repetition counter is threaded as an explicit map). -/

/-- An extracted article record. -/
structure Artigo where
  area : String
  titulo : String
  numero : String
  conteudo : String
  em_vigor : Bool
  arquivo_origem : String
deriving DecidableEq, Repr

/-- `re.search(r"\d+", s).group()`: the first run of digits in `s`. -/
def firstDigitRun (s : String) : String :=
  ⟨(s.data.dropWhile (fun c => !c.isDigit)).takeWhile (fun c => c.isDigit)⟩

/-- The repetition-counter key: `"Art. " + numeracao`. -/
def chaveArtigo (numeroArtigo : String) : String := "Art. " ++ firstDigitRun numeroArtigo

/-- Number of matches sharing the key `k`. -/
def countChave (ms : List (String × String)) (k : String) : ℕ :=
  (ms.filter (fun m => decide (chaveArtigo m.1 = k))).length

/-- The first loop of `processar_pdf`: build the per-key repetition
counter `contador_artigos`. -/
def contadorArtigos (ms : List (String × String)) : String → ℕ :=
  ms.foldl
    (fun contador m k =>
      if k = chaveArtigo m.1 then contador k + 1 else contador k)
    (fun _ => 0)

/-- `" ".join(texto.strip().split())`: the whitespace-normalised article
body. -/
def corpoNorm (s : String) : String := String.intercalate " " (pySplit (pyStrip s))

/-- The article record built in the in-force branch of the marking loop. -/
def vigenteArtigo (nomeLei arquivo : String) (m : String × String) : Artigo :=
  ⟨"Direito Administrativo", nomeLei, pyStrip m.1, corpoNorm m.2, true, arquivo⟩

/-- The article record built in the vetoed branch of the marking loop:
not in force, body suffixed with " (VETADO)". -/
def vetadoArtigo (nomeLei arquivo : String) (m : String × String) : Artigo :=
  ⟨"Direito Administrativo", nomeLei, pyStrip m.1, corpoNorm m.2 ++ " (VETADO)", false, arquivo⟩

/-- The second loop of `processar_pdf`: walk the matches with the
repetition counter; a key whose counter still exceeds 1 is emitted as
vetoed and its counter decremented, otherwise it is emitted in force. -/
def processarMatches (nomeLei arquivo : String) :
    (String → ℕ) → List (String × String) → List Artigo
  | _, [] => []
  | contador, m :: rest =>
    if 1 < contador (chaveArtigo m.1) then
      vetadoArtigo nomeLei arquivo m ::
        processarMatches nomeLei arquivo
          (fun k => if k = chaveArtigo m.1 then contador (chaveArtigo m.1) - 1 else contador k)
          rest
    else
      vigenteArtigo nomeLei arquivo m :: processarMatches nomeLei arquivo contador rest

/-- Lines 42-68 of `processar_pdf`: count repetitions, then mark. -/
def extrairArtigos (nomeLei arquivo : String) (ms : List (String × String)) : List Artigo :=
  processarMatches nomeLei arquivo (contadorArtigos ms) ms

/-- A match list in which article number 1 appears twice. -/
def matchesArt1Duas : List (String × String) :=
  [("Art. 1º", "corpo um"), ("Art. 1º", "corpo dois")]

/-! ### `criar_chunks` -/

/-- A chunk handed to the vector store (`langchain` `Document` with the
metadata written by `criar_chunks`). -/
structure DocChunk where
  page_content : String
  area : String
  titulo : String
  numero : String
  em_vigor : Bool
  arquivo_origem : String
  tipo : String
  chunk_index : Option ℕ
deriving DecidableEq, Repr

/-- The word groups visited by `for i in range(0, len(palavras), step)`
with slices `palavras[i:i+step]`. -/
def wordGroups {α : Type} (step : ℕ) (l : List α) : List (List α) :=
  (List.range' 0 ((l.length + step - 1) / step) step).map
    (fun i => (l.drop i).take step)

/-- `criar_chunks` for one article: a single full-article chunk when the
body fits in `chunk_size` characters, otherwise one chunk per group of
`chunk_size / 10` words, labeled "(parte i/100 + 1)" with chunk index
`i/100` (the Python loop over `range(0, len(palavras), chunk_size//10)`,
modelled through the index list `List.range'`). -/
def criarChunksArtigo (artigo : Artigo) (chunk_size : ℕ) : List DocChunk :=
  if artigo.conteudo.length ≤ chunk_size then
    [⟨artigo.numero ++ ": " ++ artigo.conteudo, artigo.area, artigo.titulo, artigo.numero,
      artigo.em_vigor, artigo.arquivo_origem, "artigo_completo", none⟩]
  else
    (List.range' 0
        (((pySplit artigo.conteudo).length + chunk_size / 10 - 1) / (chunk_size / 10))
        (chunk_size / 10)).map
      (fun i =>
        ⟨artigo.numero ++ " (parte " ++ toString (i / 100 + 1) ++ "): "
            ++ String.intercalate " " (((pySplit artigo.conteudo).drop i).take (chunk_size / 10)),
          artigo.area, artigo.titulo, artigo.numero, artigo.em_vigor, artigo.arquivo_origem,
          "artigo_chunk", some (i / 100)⟩)

/-- `criar_chunks` over the article list (default `chunk_size` 1000). -/
def criarChunks (artigos : List Artigo) (chunk_size : ℕ := 1000) : List DocChunk :=
  (artigos.map (fun a => criarChunksArtigo a chunk_size)).flatten

/-- A short article (body within the default chunk size). -/
def artigoCurto : Artigo :=
  ⟨"Direito Administrativo", "Lei de Teste", "Art. 1º", "corpo pequeno", true, "lei.pdf"⟩

/-- A long article: a single word of 1001 characters. -/
def artigoLongo : Artigo :=
  ⟨"Direito Administrativo", "Lei de Teste", "Art. 2º",
    String.mk (List.replicate 1001 'a'), true, "lei.pdf"⟩

end RespondeAI

namespace RespondeAI

/-! ### Lemmas about `rfindChar` and `truncar_texto` -/

theorem rfindChar_spec (c : Char) :
    ∀ (l : List Char) (j : ℕ), rfindChar c l = some j →
      j < l.length ∧ l[j]? = some c := by
  intro l
  induction l with
  | nil => intro j h; simp [rfindChar] at h
  | cons x xs ih =>
    intro j h
    unfold rfindChar at h
    cases hx : rfindChar c xs with
    | some j' =>
      rw [hx] at h
      obtain ⟨h1, h2⟩ := ih j' hx
      cases h
      constructor
      · simpa using Nat.succ_lt_succ h1
      · simpa using h2
    | none =>
      rw [hx] at h
      by_cases hxc : x = c
      · rw [if_pos hxc] at h
        cases h
        subst hxc
        exact ⟨Nat.succ_pos _, by simp⟩
      · rw [if_neg hxc] at h
        cases h

theorem rfindChar_ge (c : Char) :
    ∀ (l : List Char) (i : ℕ), l[i]? = some c →
      ∃ j, rfindChar c l = some j ∧ i ≤ j := by
  intro l
  induction l with
  | nil => intro i h; simp at h
  | cons x xs ih =>
    intro i h
    cases i with
    | zero =>
      simp at h
      cases hx : rfindChar c xs with
      | some j' => exact ⟨j' + 1, by simp [rfindChar, hx], Nat.zero_le _⟩
      | none => exact ⟨0, by simp [rfindChar, hx, h], Nat.le_refl 0⟩
    | succ i' =>
      simp only [List.getElem?_cons_succ] at h
      obtain ⟨j', hj', hij⟩ := ih i' h
      exact ⟨j' + 1, by simp [rfindChar, hj'], Nat.succ_le_succ hij⟩

/-- C10 (amended).  `truncar_texto` returns the input unchanged when it fits
in the budget; otherwise it appends an ellipsis to a prefix of at most
`max_chars` characters, and whenever the first `max_chars` characters
contain a space at a positive index, the prefix ends exactly before a
space of the original text (so no word is split in that case).  When they
contain no such space, the raw `max_chars`-character prefix is kept and
may split a word. -/
theorem C10_truncar_amended (texto : String) (max_chars : ℕ) :
    (texto.length ≤ max_chars → truncarTexto texto max_chars = texto) ∧
    (max_chars < texto.length →
      ∃ core : String,
        truncarTexto texto max_chars = core ++ "..." ∧
        texto.data.take core.length = core.data ∧
        core.length ≤ max_chars ∧
        ((∃ j, 0 < j ∧ (texto.data.take max_chars)[j]? = some ' ') →
          texto.data[core.length]? = some ' ')) := by
  constructor
  · intro h
    unfold truncarTexto
    rw [if_pos h]
  · intro h
    have hnle : ¬ texto.length ≤ max_chars := by omega
    have hdlen : texto.data.length = texto.length := rfl
    have htlen : (texto.data.take max_chars).length = max_chars := by
      rw [List.length_take]; omega
    unfold truncarTexto
    rw [if_neg hnle]
    dsimp only
    cases hrf : rfindChar ' ' (texto.data.take max_chars) with
    | none =>
      refine ⟨String.mk (texto.data.take max_chars), rfl, ?_, ?_, ?_⟩
      · show texto.data.take (texto.data.take max_chars).length = texto.data.take max_chars
        rw [htlen]
      · show (texto.data.take max_chars).length ≤ max_chars
        omega
      · rintro ⟨j, hj, hjs⟩
        obtain ⟨j', hj', _⟩ := rfindChar_ge ' ' (texto.data.take max_chars) j hjs
        rw [hrf] at hj'
        cases hj'
    | some j =>
      dsimp only
      by_cases hj0 : 0 < j
      · rw [if_pos hj0]
        obtain ⟨hjlt, hjc⟩ := rfindChar_spec ' ' (texto.data.take max_chars) j hrf
        have hcl : ((texto.data.take max_chars).take j).length = j := by
          rw [List.length_take]; omega
        refine ⟨String.mk ((texto.data.take max_chars).take j), rfl, ?_, ?_, ?_⟩
        · show texto.data.take ((texto.data.take max_chars).take j).length
            = (texto.data.take max_chars).take j
          rw [hcl, List.take_take]
          congr 1
          omega
        · show ((texto.data.take max_chars).take j).length ≤ max_chars
          omega
        · intro _
          show texto.data[((texto.data.take max_chars).take j).length]? = some ' '
          rw [hcl]
          rw [List.getElem?_take] at hjc
          rw [if_pos (by omega : j < max_chars)] at hjc
          exact hjc
      · rw [if_neg hj0]
        refine ⟨String.mk (texto.data.take max_chars), rfl, ?_, ?_, ?_⟩
        · show texto.data.take (texto.data.take max_chars).length = texto.data.take max_chars
          rw [htlen]
        · show (texto.data.take max_chars).length ≤ max_chars
          omega
        · rintro ⟨i, hi, his⟩
          obtain ⟨j', hj', hij⟩ := rfindChar_ge ' ' (texto.data.take max_chars) i his
          rw [hrf] at hj'
          cases hj'
          omega

/-- C10 witness: at "ab cd ef" with budget 5 the theorem yields an
ellipsis-terminated prefix ending right before a space, and at "abc" with
budget 5 the text is returned unchanged. -/
theorem C10_truncar_amended_witness :
    truncarTexto "abc" 5 = "abc" ∧
    ∃ core : String, truncarTexto "ab cd ef" 5 = core ++ "..." ∧
      ("ab cd ef" : String).data[core.length]? = some ' ' := by
  refine ⟨(C10_truncar_amended "abc" 5).1 (by decide), ?_⟩
  obtain ⟨core, h1, _, _, h4⟩ := (C10_truncar_amended "ab cd ef" 5).2 (by decide)
  exact ⟨core, h1, h4 ⟨2, by decide, by decide⟩⟩

/-- C10 counterexample: on the single long word "abcdefgh" with budget 3,
`truncar_texto` returns "abc..." whose kept prefix cuts the word in the
middle, so the claim "never splits a word" fails. -/
theorem C10_counterexample : ¬ claimC10At "abcdefgh" 3 := by
  rintro (⟨hle, -⟩ | ⟨-, core, heq, hpre, hnsplit⟩)
  · exact absurd hle (by decide)
  · have hval : truncarTexto "abcdefgh" 3 = "abc..." := by decide
    rw [hval] at heq
    have hdata : core.data ++ ("..." : String).data = ("abc..." : String).data := by
      have := congrArg String.data heq
      exact this.symm
    have hcore : core = "abc" := by
      apply String.ext
      exact List.append_cancel_right (by simpa using hdata)
    subst hcore
    exact absurd hnsplit (by decide)

/-- C4.  `buscar_similares` never forwards its metadata filter to the
engine call, so for every engine, query and result count the returned
document list is identical under any two filter arguments (including
none): the answer-cache lookup, the similar-question lookup and the
in-force-restricted retrieval all receive unfiltered results. -/
theorem C4_filtro_ignored {α : Type} (s : RagSettings)
    (engine : String → ℕ → Except String (List (α × ℚ)))
    (query : String) (k : Option ℕ) (f1 f2 : Option Filtro) :
    buscarSimilares s engine query k f1 = buscarSimilares s engine query k f2 := rfl

/-- C7.  When the engine returns ranked pairs, `buscar_similares` returns
exactly the documents whose score is at or above the configured
threshold, as a sublist (hence in the original relative order) of the
engine's document list, containing every document scoring at or above the
threshold; when the engine fails, the result is empty. -/
theorem C7_threshold_filter {α : Type} (s : RagSettings)
    (engine : String → ℕ → Except String (List (α × ℚ)))
    (query : String) (k : Option ℕ) (filtro : Option Filtro) :
    (∀ pairs, engine query (resolveK s k) = Except.ok pairs →
      buscarSimilares s engine query k filtro
          = (pairs.filter (fun p => s.score_threshold ≤ p.2)).map Prod.fst ∧
        (buscarSimilares s engine query k filtro).Sublist (pairs.map Prod.fst) ∧
        ∀ d sc, (d, sc) ∈ pairs → s.score_threshold ≤ sc →
          d ∈ buscarSimilares s engine query k filtro) ∧
    (∀ msg, engine query (resolveK s k) = Except.error msg →
      buscarSimilares s engine query k filtro = []) := by
  constructor
  · intro pairs hok
    have hval : buscarSimilares s engine query k filtro
        = (pairs.filter (fun p => s.score_threshold ≤ p.2)).map Prod.fst := by
      unfold buscarSimilares
      rw [hok]
    refine ⟨hval, ?_, ?_⟩
    · rw [hval]
      exact (List.filter_sublist pairs).map Prod.fst
    · intro d sc hmem hsc
      rw [hval]
      exact List.mem_map.mpr ⟨(d, sc), List.mem_filter.mpr ⟨hmem, by simpa using hsc⟩, rfl⟩
  · intro msg herr
    unfold buscarSimilares
    rw [herr]

/-- C7 witness: with the spec's example scores [0.9, 0.6, 0.4, 0.2] and
threshold 0.5 the returned list is exactly the first two documents in
order, and a failing engine yields an empty list. -/
theorem C7_threshold_filter_witness :
    buscarSimilares defaultRagSettings engineExemplo "q" none none = ["d1", "d2"] ∧
    buscarSimilares defaultRagSettings engineFalha "q" none none = [] := by
  constructor
  · have h := ((C7_threshold_filter defaultRagSettings engineExemplo "q" none none).1
      [("d1", 9/10), ("d2", 6/10), ("d3", 4/10), ("d4", 2/10)] rfl).1
    rw [h]
    norm_num [List.filter_cons, defaultRagSettings]
  · exact (C7_threshold_filter defaultRagSettings engineFalha "q" none none).2
      "ConnectionError" rfl

/-- C2 (code behavior).  For every existing folder the CLI ingestion tool
exits 1 regardless of the pipeline outcome: the call to
`processar_e_indexar` passes the keyword `apenas_em_vigor`, which the
function does not accept, so a `TypeError` is raised before the pipeline
runs; a missing folder also exits 1.  Moreover, even if the keywords did
bind, `main` tests the truthiness of the returned dict, which is
non-empty (truthy) even for the failure result. -/
theorem C2_cli_exit_codes :
    (∀ outcome : PipelineOutcome, mainExitCode true outcome = 1) ∧
    mainExitCode false PipelineOutcome.falha = 1 ∧
    bindKwargs processarEIndexarParams extractCliKwargs
      = Except.error "got an unexpected keyword argument apenas_em_vigor" ∧
    (∀ outcome : PipelineOutcome, pyDictTruthy (pipelineDict outcome) = true) := by
  refine ⟨fun outcome => rfl, rfl, rfl, fun outcome => ?_⟩
  cases outcome <;> rfl

theorem expansion_foldl_const (lower : String) :
    ∀ (entries : List (String × String)) (q : String),
      (∀ e ∈ entries, pyIn e.1 lower = false) →
      entries.foldl (fun query_expandida e =>
        if pyIn e.1 lower then query_expandida ++ " " ++ e.2 else query_expandida) q = q := by
  intro entries
  induction entries with
  | nil => intro q _; rfl
  | cons e es ih =>
    intro q h
    have he := h e (List.mem_cons_self e es)
    simp only [List.foldl_cons, he, Bool.false_eq_true, if_false]
    exact ih q (fun e' he' => h e' (List.mem_cons_of_mem e he'))

/-- C9.  Query expansion: a theme whose lower-cased form contains no
trigger substring is returned unchanged, and a theme whose only trigger
is "cf/88" gets " Constituição Federal" appended exactly once. -/
theorem C9_query_expansion :
    (∀ tema : String, (∀ t ∈ gatilhos, pyIn t (pyLower tema) = false) →
      expandirQueryComMetadados tema = tema) ∧
    (∀ tema : String, pyIn "cf/88" (pyLower tema) = true →
      (∀ t ∈ gatilhos, t ≠ "cf/88" → pyIn t (pyLower tema) = false) →
      expandirQueryComMetadados tema = tema ++ " Constituição Federal") := by
  constructor
  · intro tema h
    unfold expandirQueryComMetadados
    exact expansion_foldl_const (pyLower tema) mapeamentoLeis tema
      (fun e he => h e.1 (List.mem_map_of_mem Prod.fst he))
  · intro tema hcf hothers
    have h1 := hothers "lei de introdução" (by decide) (by decide)
    have h2 := hothers "lindb" (by decide) (by decide)
    have h3 := hothers "4657" (by decide) (by decide)
    have h4 := hothers "código civil" (by decide) (by decide)
    have h5 := hothers "10406" (by decide) (by decide)
    have h6 := hothers "constituição" (by decide) (by decide)
    have h7 := hothers "código penal" (by decide) (by decide)
    have h8 := hothers "2848" (by decide) (by decide)
    simp only [expandirQueryComMetadados, mapeamentoLeis, List.foldl_cons, List.foldl_nil,
      h1, h2, h3, h4, h5, h6, h7, h8, hcf, Bool.false_eq_true, if_false, if_true]
    have hlit : (" " ++ "Constituição Federal" : String) = " Constituição Federal" := rfl
    rw [String.append_assoc, hlit]

/-- C9 witness: "direito administrativo" contains no trigger and is
unchanged; "CF/88" triggers exactly the constitution expansion. -/
theorem C9_query_expansion_witness :
    expandirQueryComMetadados "direito administrativo" = "direito administrativo" ∧
    expandirQueryComMetadados "CF/88" = "CF/88 Constituição Federal" := by
  constructor
  · exact C9_query_expansion.1 "direito administrativo" (by decide)
  · exact C9_query_expansion.2 "CF/88" (by decide) (by decide)

theorem mergeDocs_foldl_of_le {α : Type} [DecidableEq α] (k : ℕ) :
    ∀ (ds acc : List α), k ≤ acc.length →
      ds.foldl (fun docs_combinados doc =>
        if doc ∉ docs_combinados ∧ docs_combinados.length < k
        then docs_combinados ++ [doc] else docs_combinados) acc = acc := by
  intro ds
  induction ds with
  | nil => intro acc _; rfl
  | cons d ds ih =>
    intro acc h
    have hstep : (if d ∉ acc ∧ acc.length < k then acc ++ [d] else acc) = acc := by
      rw [if_neg]
      rintro ⟨-, hlt⟩
      omega
    simp only [List.foldl_cons, hstep]
    exact ih acc h

theorem mergeDocs_eq_specMergeAux {α : Type} [DecidableEq α] (k : ℕ) :
    ∀ (geral acc : List α), mergeDocs acc geral k = specMergeAux k acc geral := by
  intro geral
  induction geral with
  | nil => intro acc; rfl
  | cons d ds ih =>
    intro acc
    show (d :: ds).foldl _ acc = specMergeAux k acc (d :: ds)
    unfold specMergeAux
    by_cases hk : k ≤ acc.length
    · rw [if_pos hk]
      exact mergeDocs_foldl_of_le k (d :: ds) acc hk
    · rw [if_neg hk]
      by_cases hd : d ∈ acc
      · have hstep : (if d ∉ acc ∧ acc.length < k then acc ++ [d] else acc) = acc := by
          rw [if_neg]
          rintro ⟨hnd, -⟩
          exact hnd hd
        rw [if_pos hd]
        simp only [List.foldl_cons, hstep]
        exact ih acc
      · have hstep : (if d ∉ acc ∧ acc.length < k then acc ++ [d] else acc) = acc ++ [d] := by
          rw [if_pos ⟨hd, by omega⟩]
        rw [if_neg hd]
        simp only [List.foldl_cons, hstep]
        exact ih (acc ++ [d])

/-- C5 (amended).  The question-generation retrieval path requests
`max 1 (k / 2)` documents with the in-force filter argument (not
`⌈k/2⌉`), then `k` documents with no filter, and merges by taking all
in-force results first and appending non-duplicate general results until
the merged list reaches length `k`. -/
theorem C5_retrieval_amended {α : Type} [DecidableEq α]
    (search : String → ℕ → Option Filtro → List α) (tema : String) (k : ℕ) :
    buscarContextoCombinados search tema k = specRetrievalFloor search tema k := by
  unfold buscarContextoCombinados specRetrievalFloor
  exact mergeDocs_eq_specMergeAux k _ _

/-- C5 counterexample: at the default `k = 5` the code requests
`max 1 (5 / 2) = 2` in-force documents while the claim's strategy
requests `⌈5/2⌉ = 3`, so the two merged lists differ on an oracle that
honours the requested count. -/
theorem C5_counterexample :
    buscarContextoCombinados searchExemplo "tema" 5
      ≠ specRetrievalCeil searchExemplo "tema" 5 := by decide

theorem intersecaoLen_card (p1 p2 : String) :
    intersecaoLen p1 p2 = ((pySplit p1).toFinset ∩ (pySplit p2).toFinset).card := by
  have hnd : ((palavrasDe p1).filter (fun w => decide (w ∈ palavrasDe p2))).Nodup :=
    List.Nodup.filter _ (List.nodup_dedup _)
  unfold intersecaoLen
  rw [← List.toFinset_card_of_nodup hnd]
  congr 1
  ext w
  simp [palavrasDe, List.mem_toFinset, List.mem_filter, List.mem_dedup, Finset.mem_inter]

theorem uniaoLen_card (p1 p2 : String) :
    uniaoLen p1 p2 = ((pySplit p1).toFinset ∪ (pySplit p2).toFinset).card := by
  unfold uniaoLen
  rw [← List.card_toFinset]
  congr 1
  ext w
  simp [palavrasDe, List.mem_toFinset, List.mem_append, List.mem_dedup, Finset.mem_union]

theorem similaridade_eq_jaccard (q1 q2 : String) :
    similaridade (pyNorm q1) (pyNorm q2) = jaccardRatio q1 q2 := by
  unfold similaridade jaccardRatio wordSet
  by_cases hu : 0 < uniaoLen (pyNorm q1) (pyNorm q2)
  · rw [if_pos hu, intersecaoLen_card, uniaoLen_card]
  · rw [if_neg hu]
    have h0 : ((pySplit (pyNorm q1)).toFinset
        ∪ (pySplit (pyNorm q2)).toFinset).card = 0 := by
      have h := uniaoLen_card (pyNorm q1) (pyNorm q2)
      omega
    rw [h0]
    norm_num

theorem perguntasSimilares_iff (q1 q2 : String) :
    perguntasSimilares q1 q2 = true ↔ cacheHitSpec q1 q2 := by
  unfold perguntasSimilares cacheHitSpec
  by_cases h : pyNorm q1 = pyNorm q2
  · rw [if_pos h]
    simp [h]
  · rw [if_neg h, similaridade_eq_jaccard q1 q2, decide_eq_true_eq]
    exact (or_iff_right h).symm

set_option maxRecDepth 40000 in
/-- C6.  The answer-cache similarity predicate holds exactly when the two
questions are equal after lower-casing and trimming, or their Jaccard
word-set overlap ratio is strictly greater than 0.8; in particular a pair
with ratio exactly 4/5 is not a hit while a pair with ratio 81/100 is. -/
theorem C6_cache_similarity :
    (∀ q1 q2 : String, perguntasSimilares q1 q2 = true ↔ cacheHitSpec q1 q2) ∧
    (jaccardRatio "a b c d e" "a b c d" = 4/5 ∧
      perguntasSimilares "a b c d e" "a b c d" = false) ∧
    (jaccardRatio questao100 questao81 = 81/100 ∧
      perguntasSimilares questao100 questao81 = true) := by
  have hi5 : (wordSet "a b c d e" ∩ wordSet "a b c d").card = 4 := by decide
  have hu5 : (wordSet "a b c d e" ∪ wordSet "a b c d").card = 5 := by decide
  have hi100 : (wordSet questao100 ∩ wordSet questao81).card = 81 := by decide
  have hu100 : (wordSet questao100 ∪ wordSet questao81).card = 100 := by decide
  have hjac5 : jaccardRatio "a b c d e" "a b c d" = 4/5 := by
    unfold jaccardRatio
    rw [hi5, hu5]
    norm_num
  have hjac100 : jaccardRatio questao100 questao81 = 81/100 := by
    unfold jaccardRatio
    rw [hi100, hu100]
    norm_num
  refine ⟨perguntasSimilares_iff, ⟨hjac5, ?_⟩, hjac100, ?_⟩
  · cases hb : perguntasSimilares "a b c d e" "a b c d" with
    | false => rfl
    | true =>
      rcases (perguntasSimilares_iff "a b c d e" "a b c d").mp hb with h | h
      · exact absurd h (by decide)
      · rw [hjac5] at h
        norm_num at h
  · apply (perguntasSimilares_iff questao100 questao81).mpr
    right
    rw [hjac100]
    norm_num

theorem mapYamlToEnvAux_preserve (cfg : Yaml) :
    ∀ (entries : List (String × String)) (e : Env) (k : String),
      (∀ p ∈ entries, p.2 ≠ k) → mapYamlToEnvAux cfg entries e k = e k := by
  intro entries
  induction entries with
  | nil => intro e k _; rfl
  | cons p ps ih =>
    intro e k h
    have hp := h p (List.mem_cons_self p ps)
    simp only [mapYamlToEnvAux]
    rw [ih _ k (fun q hq => h q (List.mem_cons_of_mem p hq))]
    cases hv : getNestedValue cfg p.1 with
    | none => rfl
    | some v =>
      show setEnv e p.2 (pyStrYaml v) k = e k
      unfold setEnv
      rw [if_neg (fun hkk => hp hkk.symm)]

theorem mapYamlToEnvAux_write (cfg : Yaml) (path k : String) (v : Yaml)
    (hv : getNestedValue cfg path = some v) :
    ∀ (entries : List (String × String)) (e : Env),
      (path, k) ∈ entries →
      (∀ p ∈ entries, p.2 = k → p = (path, k)) →
      mapYamlToEnvAux cfg entries e k = some (pyStrYaml v) := by
  intro entries
  induction entries with
  | nil =>
    intro e hmem _
    simp at hmem
  | cons p ps ih =>
    intro e hmem huniq
    simp only [mapYamlToEnvAux]
    by_cases hpk : p = (path, k)
    · subst hpk
      by_cases hmem2 : (path, k) ∈ ps
      · exact ih _ hmem2 (fun q hq hq2 => huniq q (List.mem_cons_of_mem _ hq) hq2)
      · have hnone : ∀ q ∈ ps, q.2 ≠ k := by
          intro q hq hq2
          exact hmem2 ((huniq q (List.mem_cons_of_mem _ hq) hq2) ▸ hq)
        rw [mapYamlToEnvAux_preserve cfg ps _ k hnone, hv]
        show setEnv e k (pyStrYaml v) k = some (pyStrYaml v)
        unfold setEnv
        rw [if_pos rfl]
    · have hmem2 : (path, k) ∈ ps := by
        rcases List.mem_cons.mp hmem with h | h
        · exact absurd h.symm hpk
        · exact h
      exact ih _ hmem2 (fun q hq hq2 => huniq q (List.mem_cons_of_mem _ hq) hq2)

/-- C3 (amended).  For a configuration key set both in the YAML file and
in the pre-existing process environment, the constructed settings take
the file's value: the flattening pass overwrites the environment variable
before settings construction, so the file — not the environment — wins. -/
theorem C3_config_precedence_amended (cfg : Yaml) (e : Env) (path envvar dflt : String)
    (v : Yaml)
    (hmem : (path, envvar) ∈ yamlEnvMapping)
    (huniq : ∀ p ∈ yamlEnvMapping, p.2 = envvar → p = (path, envvar))
    (hv : getNestedValue cfg path = some v) :
    settingsAfterInit cfg e envvar dflt = pyStrYaml v := by
  unfold settingsAfterInit settingsValue mapYamlToEnv
  rw [mapYamlToEnvAux_write cfg path envvar v hv yamlEnvMapping e hmem huniq]
  rfl

/-- C3 witness: with `OPENSEARCH_HOST=env-host` in the environment and
`opensearch.host: yaml-host` in the file, the settings field is
"yaml-host". -/
theorem C3_config_precedence_amended_witness :
    settingsAfterInit yamlComHost envComHost "OPENSEARCH_HOST" "localhost" = "yaml-host" :=
  C3_config_precedence_amended yamlComHost envComHost "opensearch.host" "OPENSEARCH_HOST"
    "localhost" (Yaml.leaf "yaml-host") (by decide) (by decide) rfl

/-- C3 counterexample: the key `OPENSEARCH_HOST` is set both as an
environment variable ("env-host") and in the config file ("yaml-host"),
and the constructed settings value is the file's value, not the
environment's — the claimed environment precedence fails. -/
theorem C3_counterexample :
    envComHost "OPENSEARCH_HOST" = some "env-host" ∧
    (getNestedValue yamlComHost "opensearch.host").map pyStrYaml = some "yaml-host" ∧
    settingsAfterInit yamlComHost envComHost "OPENSEARCH_HOST" "localhost" ≠ "env-host" ∧
    settingsAfterInit yamlComHost envComHost "OPENSEARCH_HOST" "localhost" = "yaml-host" := by
  refine ⟨rfl, rfl, ?_, ?_⟩ <;> decide

theorem countChave_cons (m : String × String) (rest : List (String × String)) (k : String) :
    countChave (m :: rest) k
      = (if chaveArtigo m.1 = k then 1 else 0) + countChave rest k := by
  unfold countChave
  rw [List.filter_cons]
  by_cases h : chaveArtigo m.1 = k
  · rw [if_pos (by simp [h]), if_pos h]
    simp only [List.length_cons]
    omega
  · simp [h]

theorem contadorArtigos_foldl :
    ∀ (ms : List (String × String)) (c : String → ℕ) (k : String),
      (ms.foldl
        (fun contador m k' => if k' = chaveArtigo m.1 then contador k' + 1 else contador k')
        c) k
        = c k + countChave ms k := by
  intro ms
  induction ms with
  | nil =>
    intro c k
    simp [countChave]
  | cons m rest ih =>
    intro c k
    rw [List.foldl_cons, ih, countChave_cons]
    by_cases h : k = chaveArtigo m.1
    · rw [if_pos h, if_pos h.symm]
      omega
    · rw [if_neg h, if_neg (fun hh => h hh.symm)]
      omega

theorem contadorArtigos_eq_countChave (ms : List (String × String)) (k : String) :
    contadorArtigos ms k = countChave ms k := by
  unfold contadorArtigos
  rw [contadorArtigos_foldl]
  omega

theorem anyChave_iff (ms : List (String × String)) (k : String) :
    (ms.any fun m' => decide (chaveArtigo m'.1 = k)) = true ↔ 0 < countChave ms k := by
  rw [List.any_eq_true]
  unfold countChave
  constructor
  · rintro ⟨m', hm', hp⟩
    have hmem : m' ∈ ms.filter (fun m => decide (chaveArtigo m.1 = k)) :=
      List.mem_filter.mpr ⟨hm', hp⟩
    refine List.length_pos.mpr (fun hnil => ?_)
    rw [hnil] at hmem
    simp at hmem
  · intro h
    obtain ⟨m', hm'⟩ := List.exists_mem_of_ne_nil _ (List.length_pos.mp h)
    exact ⟨m', (List.mem_filter.mp hm').1, (List.mem_filter.mp hm').2⟩

theorem processarMatches_getElem (nomeLei arquivo : String) :
    ∀ (ms : List (String × String)) (c : String → ℕ),
      (∀ k, 0 < countChave ms k → c k = countChave ms k) →
      ∀ (i : ℕ) (m : String × String), ms[i]? = some m →
        (processarMatches nomeLei arquivo c ms)[i]? =
          some (if (ms.drop (i+1)).any
                  (fun m' => decide (chaveArtigo m'.1 = chaveArtigo m.1))
                then vetadoArtigo nomeLei arquivo m
                else vigenteArtigo nomeLei arquivo m) := by
  intro ms
  induction ms with
  | nil =>
    intro c _ i m h
    simp at h
  | cons m0 rest ih =>
    intro c Hc i m h
    have hc0 : c (chaveArtigo m0.1) = countChave rest (chaveArtigo m0.1) + 1 := by
      have hpos : 0 < countChave (m0 :: rest) (chaveArtigo m0.1) := by
        rw [countChave_cons]
        simp
      have hval := Hc _ hpos
      rw [hval, countChave_cons, if_pos rfl]
      omega
    have hcons_ne : ∀ k, k ≠ chaveArtigo m0.1 →
        countChave (m0 :: rest) k = countChave rest k := by
      intro k hkc
      rw [countChave_cons, if_neg (fun hh => hkc hh.symm)]
      omega
    by_cases hrest : 0 < countChave rest (chaveArtigo m0.1)
    · have hgt : 1 < c (chaveArtigo m0.1) := by omega
      have Hc' : ∀ k, 0 < countChave rest k →
          (fun k' => if k' = chaveArtigo m0.1
            then c (chaveArtigo m0.1) - 1 else c k') k = countChave rest k := by
        intro k hk
        by_cases hkc : k = chaveArtigo m0.1
        · subst hkc
          simp only [if_pos rfl, ite_true]
          omega
        · simp only [if_neg hkc]
          rw [← hcons_ne k hkc]
          exact Hc k (by rw [hcons_ne k hkc]; exact hk)
      simp only [processarMatches]
      rw [if_pos hgt]
      cases i with
      | zero =>
        have hm : m = m0 := by
          rw [List.getElem?_cons_zero] at h
          exact (Option.some.inj h).symm
        subst hm
        rw [List.getElem?_cons_zero]
        have hany : (((m :: rest).drop 1).any
            (fun m' => decide (chaveArtigo m'.1 = chaveArtigo m.1))) = true := by
          simpa using (anyChave_iff rest (chaveArtigo m.1)).mpr hrest
        rw [show ((m :: rest).drop 1) = rest from rfl] at hany
        rw [show ((m :: rest).drop (0+1)) = rest from rfl, if_pos hany]
      | succ i' =>
        rw [List.getElem?_cons_succ] at h
        rw [List.getElem?_cons_succ]
        rw [ih _ Hc' i' m h]
        rw [show ((m0 :: rest).drop (i' + 1 + 1)) = rest.drop (i' + 1) from
          List.drop_succ_cons]
    · have hle : ¬ 1 < c (chaveArtigo m0.1) := by omega
      have Hc' : ∀ k, 0 < countChave rest k → c k = countChave rest k := by
        intro k hk
        by_cases hkc : k = chaveArtigo m0.1
        · subst hkc
          omega
        · rw [← hcons_ne k hkc]
          exact Hc k (by rw [hcons_ne k hkc]; exact hk)
      simp only [processarMatches]
      rw [if_neg hle]
      cases i with
      | zero =>
        have hm : m = m0 := by
          rw [List.getElem?_cons_zero] at h
          exact (Option.some.inj h).symm
        subst hm
        rw [List.getElem?_cons_zero]
        have hany : ¬ ((((m :: rest).drop (0+1)).any
            (fun m' => decide (chaveArtigo m'.1 = chaveArtigo m.1))) = true) := by
          rw [show ((m :: rest).drop (0+1)) = rest from rfl]
          intro ha
          exact absurd ((anyChave_iff rest (chaveArtigo m.1)).mp ha) hrest
        rw [if_neg hany]
      | succ i' =>
        rw [List.getElem?_cons_succ] at h
        rw [List.getElem?_cons_succ]
        rw [ih _ Hc' i' m h]
        rw [show ((m0 :: rest).drop (i' + 1 + 1)) = rest.drop (i' + 1) from
          List.drop_succ_cons]

theorem processarMatches_count (nomeLei arquivo k : String) :
    ∀ (ms : List (String × String)) (c : String → ℕ),
      (∀ k', 0 < countChave ms k' → c k' = countChave ms k') →
      ((ms.zip (processarMatches nomeLei arquivo c ms)).filter
          (fun p => decide (chaveArtigo p.1.1 = k) && p.2.em_vigor)).length
        = if 0 < countChave ms k then 1 else 0 := by
  intro ms
  induction ms with
  | nil =>
    intro c _
    simp [countChave, processarMatches]
  | cons m0 rest ih =>
    intro c Hc
    have hc0 : c (chaveArtigo m0.1) = countChave rest (chaveArtigo m0.1) + 1 := by
      have hpos : 0 < countChave (m0 :: rest) (chaveArtigo m0.1) := by
        rw [countChave_cons]
        simp
      have hval := Hc _ hpos
      rw [hval, countChave_cons, if_pos rfl]
      omega
    have hcons_ne : ∀ k', k' ≠ chaveArtigo m0.1 →
        countChave (m0 :: rest) k' = countChave rest k' := by
      intro k' hkc
      rw [countChave_cons, if_neg (fun hh => hkc hh.symm)]
      omega
    by_cases hrest : 0 < countChave rest (chaveArtigo m0.1)
    · have hgt : 1 < c (chaveArtigo m0.1) := by omega
      have Hc' : ∀ k', 0 < countChave rest k' →
          (fun k'' => if k'' = chaveArtigo m0.1
            then c (chaveArtigo m0.1) - 1 else c k'') k' = countChave rest k' := by
        intro k' hk
        by_cases hkc : k' = chaveArtigo m0.1
        · subst hkc
          simp only [if_pos rfl, ite_true]
          omega
        · simp only [if_neg hkc]
          rw [← hcons_ne k' hkc]
          exact Hc k' (by rw [hcons_ne k' hkc]; exact hk)
      simp only [processarMatches]
      rw [if_pos hgt, List.zip_cons_cons, List.filter_cons]
      have hpred : (decide (chaveArtigo m0.1 = k)
          && (vetadoArtigo nomeLei arquivo m0).em_vigor) = false := by
        simp [vetadoArtigo]
      rw [hpred]
      simp only [Bool.false_eq_true, if_false]
      rw [ih _ Hc']
      by_cases hk : chaveArtigo m0.1 = k
      · have h1 : 0 < countChave rest k := by
          rw [← hk]
          exact hrest
        have h2 : 0 < countChave (m0 :: rest) k := by
          rw [countChave_cons, if_pos hk]
          omega
        rw [if_pos h1, if_pos h2]
      · rw [hcons_ne k (fun hh => hk hh.symm)]
    · have hle : ¬ 1 < c (chaveArtigo m0.1) := by omega
      have Hc' : ∀ k', 0 < countChave rest k' → c k' = countChave rest k' := by
        intro k' hk
        by_cases hkc : k' = chaveArtigo m0.1
        · subst hkc
          omega
        · rw [← hcons_ne k' hkc]
          exact Hc k' (by rw [hcons_ne k' hkc]; exact hk)
      simp only [processarMatches]
      rw [if_neg hle, List.zip_cons_cons, List.filter_cons]
      by_cases hk : chaveArtigo m0.1 = k
      · have hpred : (decide (chaveArtigo m0.1 = k)
            && (vigenteArtigo nomeLei arquivo m0).em_vigor) = true := by
          simp [vigenteArtigo, hk]
        rw [hpred, if_pos rfl]
        simp only [List.length_cons]
        rw [ih _ Hc']
        have h1 : ¬ 0 < countChave rest k := by
          rw [← hk]
          exact hrest
        have h2 : 0 < countChave (m0 :: rest) k := by
          rw [countChave_cons, if_pos hk]
          omega
        rw [if_neg h1, if_pos h2]
      · have hpred : (decide (chaveArtigo m0.1 = k)
            && (vigenteArtigo nomeLei arquivo m0).em_vigor) = false := by
          simp [vigenteArtigo, hk]
        rw [hpred]
        simp only [Bool.false_eq_true, if_false]
        rw [ih _ Hc']
        rw [hcons_ne k (fun hh => hk hh.symm)]

/-- C1 (amended).  In `processar_pdf`, when an article number appears N
times, the occurrence kept in force is the LAST one: an occurrence is
in force exactly when no later occurrence shares its key, every other
occurrence is emitted not-in-force with its normalised body suffixed by
the literal " (VETADO)" marker, and for each occurring key exactly one
emitted article is in force (so 1 in-force and N−1 vetoed). -/
theorem C1_extraction_amended (nomeLei arquivo : String) (ms : List (String × String)) :
    (∀ (i : ℕ) (m : String × String), ms[i]? = some m →
      (extrairArtigos nomeLei arquivo ms)[i]? =
        some (if (ms.drop (i+1)).any
                (fun m' => decide (chaveArtigo m'.1 = chaveArtigo m.1))
              then vetadoArtigo nomeLei arquivo m
              else vigenteArtigo nomeLei arquivo m)) ∧
    (∀ k, 0 < countChave ms k →
      ((ms.zip (extrairArtigos nomeLei arquivo ms)).filter
          (fun p => decide (chaveArtigo p.1.1 = k) && p.2.em_vigor)).length = 1) ∧
    (∀ m : String × String,
      (vetadoArtigo nomeLei arquivo m).em_vigor = false ∧
      (vetadoArtigo nomeLei arquivo m).conteudo = corpoNorm m.2 ++ " (VETADO)" ∧
      (vigenteArtigo nomeLei arquivo m).em_vigor = true ∧
      (vigenteArtigo nomeLei arquivo m).conteudo = corpoNorm m.2) := by
  have Hc : ∀ k, 0 < countChave ms k → contadorArtigos ms k = countChave ms k :=
    fun k _ => contadorArtigos_eq_countChave ms k
  refine ⟨?_, ?_, fun m => ⟨rfl, rfl, rfl, rfl⟩⟩
  · intro i m h
    exact processarMatches_getElem nomeLei arquivo ms (contadorArtigos ms) Hc i m h
  · intro k hk
    unfold extrairArtigos
    rw [processarMatches_count nomeLei arquivo k ms (contadorArtigos ms) Hc, if_pos hk]

/-- C1 witness: with "Art. 1º" appearing twice, the theorem yields the
first occurrence vetoed, the second in force, and exactly one in-force
record for the key "Art. 1". -/
theorem C1_extraction_amended_witness :
    (extrairArtigos "Lei X" "lei.pdf" matchesArt1Duas)[0]?
        = some (vetadoArtigo "Lei X" "lei.pdf" ("Art. 1º", "corpo um")) ∧
    (extrairArtigos "Lei X" "lei.pdf" matchesArt1Duas)[1]?
        = some (vigenteArtigo "Lei X" "lei.pdf" ("Art. 1º", "corpo dois")) ∧
    ((matchesArt1Duas.zip (extrairArtigos "Lei X" "lei.pdf" matchesArt1Duas)).filter
        (fun p => decide (chaveArtigo p.1.1 = "Art. 1") && p.2.em_vigor)).length = 1 := by
  have h := C1_extraction_amended "Lei X" "lei.pdf" matchesArt1Duas
  refine ⟨?_, ?_, h.2.1 "Art. 1" (by decide)⟩
  · exact (h.1 0 ("Art. 1º", "corpo um") (by decide)).trans (by decide)
  · exact (h.1 1 ("Art. 1º", "corpo dois") (by decide)).trans (by decide)

/-- Claim C1 as stated, at one input: each occurrence is in force exactly
when it is the first with its article number, and vetoed bodies end with
the literal "(VETOED)". -/
def claimC1At (nomeLei arquivo : String) (ms : List (String × String)) : Prop :=
  ∀ (i : ℕ) (m : String × String), ms[i]? = some m →
    ∃ a : Artigo, (extrairArtigos nomeLei arquivo ms)[i]? = some a ∧
      (a.em_vigor = true ↔
        ∀ j, j < i → ∀ m', ms[j]? = some m' → chaveArtigo m'.1 ≠ chaveArtigo m.1) ∧
      (a.em_vigor = false → ∃ body : String, a.conteudo = body ++ "(VETOED)")

/-- C1 counterexample: with "Art. 1º" appearing twice, the code vetoes
the FIRST occurrence (keeping the last in force), contradicting the
claim that all occurrences except the first are the vetoed ones; its
body also ends in " (VETADO)", not "(VETOED)". -/
theorem C1_counterexample :
    ¬ claimC1At "Lei X" "lei.pdf" matchesArt1Duas ∧
    ¬ ∃ body : String,
        (vetadoArtigo "Lei X" "lei.pdf" ("Art. 1º", "corpo um")).conteudo
          = body ++ "(VETOED)" := by
  constructor
  · intro hclaim
    obtain ⟨a, ha, hiff, -⟩ := hclaim 0 ("Art. 1º", "corpo um") (by decide)
    have hvet : (extrairArtigos "Lei X" "lei.pdf" matchesArt1Duas)[0]?
        = some (vetadoArtigo "Lei X" "lei.pdf" ("Art. 1º", "corpo um")) := by decide
    rw [hvet] at ha
    have ha' : a = vetadoArtigo "Lei X" "lei.pdf" ("Art. 1º", "corpo um") :=
      (Option.some.inj ha).symm
    have htrue : a.em_vigor = true :=
      hiff.mpr (fun j hj _ _ => absurd hj (Nat.not_lt_zero j))
    rw [ha'] at htrue
    exact absurd htrue (by decide)
  · rintro ⟨body, hb⟩
    have h8 := congrArg (fun s : String => s.data.reverse.take 8) hb
    simp only at h8
    rw [show ((body ++ "(VETOED)" : String)).data
        = body.data ++ ("(VETOED)" : String).data from rfl] at h8
    rw [List.reverse_append] at h8
    have htl : (("(VETOED)" : String).data.reverse ++ body.data.reverse).take 8
        = ("(VETOED)" : String).data.reverse := by
      have hlen : (("(VETOED)" : String).data.reverse).length = 8 := by decide
      rw [← hlen]
      exact List.take_left _ _
    rw [htl] at h8
    exact absurd h8 (by decide)

theorem wordGroups_flatten {α : Type} (step : ℕ) (hstep : 0 < step) :
    ∀ (n : ℕ) (l : List α), l.length ≤ n → (wordGroups step l).flatten = l := by
  intro n
  induction n with
  | zero =>
    intro l hl
    have hnil : l = [] := List.eq_nil_of_length_eq_zero (Nat.le_zero.mp hl)
    subst hnil
    simp only [wordGroups, List.length_nil, Nat.zero_add]
    rw [Nat.div_eq_of_lt (by omega)]
    rfl
  | succ n ih =>
    intro l hl
    by_cases hl0 : l.length = 0
    · have hnil : l = [] := List.eq_nil_of_length_eq_zero hl0
      subst hnil
      simp only [wordGroups, List.length_nil, Nat.zero_add]
      rw [Nat.div_eq_of_lt (by omega)]
      rfl
    · have h1 : 1 ≤ l.length := by omega
      have hcnt : (l.length + step - 1) / step = (l.length - 1) / step + 1 := by
        have he : l.length + step - 1 = (l.length - 1) + step := by omega
        rw [he, Nat.add_div_right _ hstep]
      unfold wordGroups
      rw [hcnt, List.range'_succ, Nat.zero_add]
      simp only [List.map_cons, List.flatten_cons, List.drop_zero]
      have hshift : List.range' step ((l.length - 1) / step) step
          = (List.range' 0 ((l.length - 1) / step) step).map (fun x => step + x) := by
        rw [List.map_add_range']
        congr 1
      rw [hshift, List.map_map]
      have hdrop : ∀ x ∈ List.range' 0 ((l.length - 1) / step) step,
          ((fun i => (l.drop i).take step) ∘ (fun x => step + x)) x
            = (fun i => ((l.drop step).drop i).take step) x := by
        intro x _
        show ((l.drop (step + x)).take step) = (((l.drop step).drop x).take step)
        rw [List.drop_drop]
      rw [List.map_congr_left hdrop]
      by_cases hle2 : l.length ≤ step
      · have hc0 : (l.length - 1) / step = 0 := Nat.div_eq_of_lt (by omega)
        rw [hc0]
        simp [List.take_of_length_le hle2]
      · have hlen' : (l.drop step).length = l.length - step := List.length_drop step l
        have hc'eq : (l.length - 1) / step = ((l.drop step).length + step - 1) / step := by
          rw [hlen']
          have e1 : l.length - step + step - 1 = (l.length - step - 1) + step := by omega
          have e2 : l.length - 1 = (l.length - 1 - step) + step := by omega
          rw [e1, Nat.add_div_right _ hstep]
          conv_lhs => rw [e2]
          rw [Nat.add_div_right _ hstep]
          congr 2
          omega
        have htail : (List.range' 0 ((l.length - 1) / step) step).map
            (fun i => ((l.drop step).drop i).take step) = wordGroups step (l.drop step) := by
          unfold wordGroups
          rw [← hc'eq]
        rw [htail, ih (l.drop step) (by rw [hlen']; omega)]
        exact List.take_append_drop step l

/-- C8.  `criar_chunks` at the default chunk size 1000: a body of at most
1000 characters yields exactly one chunk "<numero>: <body>" of type
"artigo_completo"; a longer body is cut into consecutive 100-word groups
whose concatenation reproduces the body's word sequence, each group
emitted as the chunk "<numero> (parte j+1): <words>" with chunk index
`j`. -/
theorem C8_chunking (artigo : Artigo) :
    (artigo.conteudo.length ≤ 1000 →
      criarChunksArtigo artigo 1000 =
        [⟨artigo.numero ++ ": " ++ artigo.conteudo, artigo.area, artigo.titulo,
          artigo.numero, artigo.em_vigor, artigo.arquivo_origem, "artigo_completo", none⟩]) ∧
    (1000 < artigo.conteudo.length →
      (wordGroups 100 (pySplit artigo.conteudo)).flatten = pySplit artigo.conteudo ∧
      (criarChunksArtigo artigo 1000).length
          = (wordGroups 100 (pySplit artigo.conteudo)).length ∧
      (∀ (j : ℕ) (g : List String),
        (wordGroups 100 (pySplit artigo.conteudo))[j]? = some g →
        (criarChunksArtigo artigo 1000)[j]? =
          some ⟨artigo.numero ++ " (parte " ++ toString (j + 1) ++ "): "
                  ++ String.intercalate " " g,
                artigo.area, artigo.titulo, artigo.numero, artigo.em_vigor,
                artigo.arquivo_origem, "artigo_chunk", some j⟩)) := by
  have hstep10 : (1000 : ℕ) / 10 = 100 := by norm_num
  constructor
  · intro h
    unfold criarChunksArtigo
    rw [if_pos h]
  · intro h
    have hnle : ¬ artigo.conteudo.length ≤ 1000 := by omega
    refine ⟨wordGroups_flatten 100 (by omega) (pySplit artigo.conteudo).length _
      (Nat.le_refl _), ?_, ?_⟩
    · unfold criarChunksArtigo wordGroups
      rw [if_neg hnle, hstep10]
      simp [List.length_map, List.length_range']
    · intro j g hg
      unfold criarChunksArtigo
      rw [if_neg hnle, hstep10]
      unfold wordGroups at hg
      rw [List.getElem?_map] at hg
      have hjlt : j < ((pySplit artigo.conteudo).length + 100 - 1) / 100 := by
        rcases hrj : (List.range' 0 (((pySplit artigo.conteudo).length + 100 - 1) / 100)
            100)[j]? with _ | i
        · rw [hrj] at hg
          simp at hg
        · obtain ⟨hlt, -⟩ := List.getElem?_eq_some_iff.mp hrj
          rw [List.length_range'] at hlt
          exact hlt
      rw [List.getElem?_range' 0 100 hjlt] at hg
      rw [Option.map_some'] at hg
      have hgval : g = ((pySplit artigo.conteudo).drop (0 + 100 * j)).take 100 :=
        (Option.some.inj hg).symm
      subst hgval
      rw [List.getElem?_map, List.getElem?_range' 0 100 hjlt, Option.map_some']
      have hidx : (0 + 100 * j) / 100 = j := by
        rw [Nat.zero_add]
        exact Nat.mul_div_cancel_left j (by norm_num)
      rw [hidx]

set_option maxRecDepth 40000 in
/-- C8 witness: the short article yields its single full chunk, and the
long article's word groups flatten back to its word list. -/
theorem C8_chunking_witness :
    criarChunksArtigo artigoCurto 1000 =
      [⟨"Art. 1º: corpo pequeno", "Direito Administrativo", "Lei de Teste", "Art. 1º", true,
        "lei.pdf", "artigo_completo", none⟩] ∧
    (wordGroups 100 (pySplit artigoLongo.conteudo)).flatten
        = pySplit artigoLongo.conteudo := by
  constructor
  · exact ((C8_chunking artigoCurto).1 (by decide)).trans (by decide)
  · exact ((C8_chunking artigoLongo).2 (by decide)).1

end RespondeAI
